import Mathlib

/-!
Verification of the batch file-transfer engine in
src/src-tauri/src/core/downloader.rs.

The development shallowly embeds the function download_files and its
per-task worker body.  External effects are abstracted by an oracle
environment (Env): the filesystem existence check, the result of reading
the existing destination file, the result of creating the destination
file, and the HTTP response (content length, body chunks together with
the per-chunk write result, and how the body stream ends).  Machine
integers are modelled as Nat with explicit reduction modulo 2 ^ 32 where
the hashing code overflows; the shared atomic counters are modelled by a
replay semantics over the sequence of counter actions each worker
performs.
-/

namespace DropOut

/-! SHA-1 (the fixed hashing algorithm used by the worker: the sha1
crate, RFC 3174) and lowercase hex encoding (the hex crate).  Bytes are
Nat values below 256, words are Nat values below 2 ^ 32. -/

/-- Rotate a 32-bit word left by n bits. -/
def rotl (n x : Nat) : Nat := ((x <<< n) ||| (x >>> (32 - n))) % 2 ^ 32

/-- Big-endian 8-byte encoding of a length in bits. -/
def beBytes8 (n : Nat) : List Nat :=
  [n / 2 ^ 56 % 256, n / 2 ^ 48 % 256, n / 2 ^ 40 % 256, n / 2 ^ 32 % 256,
   n / 2 ^ 24 % 256, n / 2 ^ 16 % 256, n / 2 ^ 8 % 256, n % 256]

/-- SHA-1 message padding: one 0x80 byte, zeros up to 56 mod 64, then the
bit length, big-endian. -/
def sha1pad (msg : List Nat) : List Nat :=
  msg ++ 0x80 :: List.replicate ((119 - msg.length % 64) % 64) 0 ++ beBytes8 (msg.length * 8)

/-- Group bytes into big-endian 32-bit words. -/
def wordsOf : List Nat → List Nat
  | b0 :: b1 :: b2 :: b3 :: rest => (((b0 * 256 + b1) * 256 + b2) * 256 + b3) :: wordsOf rest
  | _ => []

/-- Split a word list into 16-word blocks; the fuel is an upper bound on
the number of blocks, instantiated with the list length. -/
def blocksOfAux : Nat → List Nat → List (List Nat)
  | 0, _ => []
  | _ + 1, [] => []
  | n + 1, w :: ws => ((w :: ws).take 16) :: blocksOfAux n ((w :: ws).drop 16)

/-- Split a word list into 16-word blocks. -/
def blocksOf (ws : List Nat) : List (List Nat) := blocksOfAux ws.length ws

/-- Extend a 16-word block to the 80-word message schedule. -/
def extendLoop : Nat → List Nat → List Nat
  | 0, w => w
  | n + 1, w =>
    let l := w.length
    extendLoop n
      (w ++ [rotl 1 ((w.getD (l - 3) 0) ^^^ (w.getD (l - 8) 0) ^^^
        (w.getD (l - 14) 0) ^^^ (w.getD (l - 16) 0))])

/-- Round function of SHA-1. -/
def sha1f (i b c d : Nat) : Nat :=
  if i < 20 then (b &&& c) ||| ((b ^^^ 0xffffffff) &&& d)
  else if i < 40 then b ^^^ c ^^^ d
  else if i < 60 then (b &&& c) ||| (b &&& d) ||| (c &&& d)
  else b ^^^ c ^^^ d

/-- Round constants of SHA-1. -/
def sha1k (i : Nat) : Nat :=
  if i < 20 then 0x5a827999
  else if i < 40 then 0x6ed9eba1
  else if i < 60 then 0x8f1bbcdc
  else 0xca62c1d6

/-- Compress one 16-word block into the running 5-word state. -/
def compressBlock (h : List Nat) (block : List Nat) : List Nat :=
  let w := extendLoop 64 block
  let st := (List.range 80).foldl
    (fun (st : Nat × Nat × Nat × Nat × Nat) i =>
      let t := (rotl 5 st.1 + sha1f i st.2.1 st.2.2.1 st.2.2.2.1 + st.2.2.2.2 +
        sha1k i + w.getD i 0) % 2 ^ 32
      (t, st.1, rotl 30 st.2.1, st.2.2.1, st.2.2.2.1))
    (h.getD 0 0, h.getD 1 0, h.getD 2 0, h.getD 3 0, h.getD 4 0)
  [(h.getD 0 0 + st.1) % 2 ^ 32, (h.getD 1 0 + st.2.1) % 2 ^ 32,
   (h.getD 2 0 + st.2.2.1) % 2 ^ 32, (h.getD 3 0 + st.2.2.2.1) % 2 ^ 32,
   (h.getD 4 0 + st.2.2.2.2) % 2 ^ 32]

/-- SHA-1 digest of a byte list: 20 bytes. -/
def sha1 (msg : List Nat) : List Nat :=
  let hs := (blocksOf (wordsOf (sha1pad msg))).foldl compressBlock
    [0x67452301, 0xefcdab89, 0x98badcfe, 0x10325476, 0xc3d2e1f0]
  hs.flatMap (fun h => [h / 2 ^ 24 % 256, h / 2 ^ 16 % 256, h / 2 ^ 8 % 256, h % 256])

/-- Lowercase hex digit, as produced by hex encoding. -/
def hexDigit (n : Nat) : Char :=
  if n < 10 then Char.ofNat (48 + n) else Char.ofNat (87 + n)

/-- Lowercase hex encoding of a byte list (the hex crate encode). -/
def hexEncode (bs : List Nat) : String :=
  String.mk (bs.flatMap (fun b => [hexDigit (b / 16 % 16), hexDigit (b % 16)]))

/-! Destination paths.  Rust PathBuf components, restricted to the three
component kinds the claims exercise; file_name returns the final normal
component and returns none when the path ends in a parent-directory
component, is a bare root, or is empty, as Path::file_name does. -/

/-- One component of a destination path. -/
inductive PathComp where
  | rootDir : PathComp
  | parentDir : PathComp
  | normal (s : String) : PathComp
deriving DecidableEq, Repr

/-- Rust Path::file_name on a component list: the trailing normal
component, if any. -/
def fileName : List PathComp → Option String
  | [] => none
  | [PathComp.normal s] => some s
  | [_] => none
  | _ :: rest => fileName rest

/-! Data model of the engine, from downloader.rs. -/

/-- DownloadTask, downloader.rs lines 11-15. -/
structure DownloadTask where
  url : String
  path : List PathComp
  sha1 : Option String
deriving DecidableEq, Repr

/-- ProgressEvent, downloader.rs lines 18-26. -/
structure ProgressEvent where
  file : String
  downloaded : Nat
  total : Nat
  status : String
  completed_files : Nat
  total_files : Nat
  total_downloaded_bytes : Nat
deriving DecidableEq, Repr

/-- Oracle for one successful HTTP GET response: the declared content
length (none when the content-length header is absent), the body chunks
each paired with the result of writing that chunk to the destination
file (none meaning the write succeeded, some e meaning write_all failed
with error message e), and how the stream ends after the listed chunks
(none for a clean end, some e for a chunk read error). -/
structure HttpOk where
  contentLength : Option Nat
  body : List (List Nat × Option String)
  streamEnd : Option String

/-- Oracle environment for one worker: the destination existence check,
the result of reading the existing destination, the result of creating
the destination file, and the HTTP GET outcome for the task URL. -/
structure Env where
  fsExists : Bool
  fsRead : Option (List Nat)
  createResult : Option String
  http : Except String HttpOk

/-- Terminal outcome of one worker future: a panic (an unwrap of none),
an error string returned as Err, or Ok. -/
inductive Outcome where
  | panicked : Outcome
  | error (msg : String) : Outcome
  | ok : Outcome
deriving DecidableEq, Repr

/-- One observable action of a worker on the shared state.  Each
constructor bundles one event emission with the atomic counter update
whose fetched result that emission uses, exactly as the corresponding
emission site in downloader.rs pairs them:
emitVerifying reads both counters (lines 55-65);
skipped increments completed_files and carries the post-increment value,
reading the byte counter (lines 74-87);
chunk increments the byte counter by the chunk length and carries the
post-increment value, reading completed_files (lines 110-125);
finished increments completed_files and carries the post-increment
value, reading the byte counter (lines 137-149). -/
inductive Act where
  | emitVerifying (file : String) : Act
  | skipped (file : String) : Act
  | chunk (file : String) (downloaded total n : Nat) : Act
  | finished (file : String) : Act
deriving DecidableEq, Repr

/-- Result of one worker: its outcome, the sequence of shared-state
actions it performed, whether it issued the HTTP GET, whether it called
File::create on the destination (truncating it), and the bytes it wrote
to the destination. -/
structure WorkerResult where
  outcome : Outcome
  acts : List Act
  httpRequested : Bool
  fileCreated : Bool
  written : List Nat
deriving DecidableEq, Repr

/-- Streaming loop of the worker, downloader.rs lines 106-132: for each
chunk, write it to the file (a failed write aborts with a Write error
and the chunk is not recorded as appended), accumulate the per-file
running total, perform the byte-counter action and emit Downloading;
after the last chunk the stream either ends cleanly or yields a read
error reported as a Download error.  Returns the error if any, the
action list, and the bytes appended to the file. -/
def runChunks (file : String) (totalSize : Nat) :
    Nat → List (List Nat × Option String) → Option String →
    Option String × List Act × List Nat
  | _, [], none => (none, [], [])
  | _, [], some e => (some ("Download error: " ++ e), [], [])
  | downloaded, (c, w) :: rest, send =>
    match w with
    | some e => (some ("Write error: " ++ e), [], [])
    | none =>
      let dl := downloaded + c.length
      let r := runChunks file totalSize dl rest send
      (r.1, Act.chunk file dl totalSize c.length :: r.2.1, c ++ r.2.2)

/-- Download phase of the worker, downloader.rs lines 95-152: issue the
GET (a request failure returns a Request error with no file touched),
read the declared content length with 0 as the default, create the
destination file (a failure returns a Create file error), stream the
body, and on a clean stream end perform the terminal completed-files
action and emit Finished.  The pre argument is the action prefix already
performed by the pre-flight check. -/
def downloadPhase (env : Env) (name : String) (pre : List Act) : WorkerResult :=
  match env.http with
  | Except.error e => ⟨Outcome.error ("Request error: " ++ e), pre, true, false, []⟩
  | Except.ok resp =>
    let totalSize := resp.contentLength.getD 0
    match env.createResult with
    | some e => ⟨Outcome.error ("Create file error: " ++ e), pre, true, false, []⟩
    | none =>
      let r := runChunks name totalSize 0 resp.body resp.streamEnd
      match r.1 with
      | some e => ⟨Outcome.error e, pre ++ r.2.1, true, true, r.2.2⟩
      | none => ⟨Outcome.ok, pre ++ r.2.1 ++ [Act.finished name], true, true, r.2.2⟩

/-- One worker body, downloader.rs lines 48-152.  The file name is the
unwrap of Path::file_name (line 50); a none there panics before any
action.  If the destination exists, Verifying is emitted first; if an
expected digest was supplied and the destination could be read and its
lowercase hex SHA-1 equals the expected string, the worker performs the
terminal completed-files action, emits Skipped and returns Ok with no
network access; otherwise it falls through to the download phase. -/
def workerRun (env : Env) (task : DownloadTask) : WorkerResult :=
  match fileName task.path with
  | none => ⟨Outcome.panicked, [], false, false, []⟩
  | some name =>
    if env.fsExists then
      match task.sha1 with
      | some expected =>
        match env.fsRead with
        | some data =>
          if hexEncode (sha1 data) = expected then
            ⟨Outcome.ok, [Act.emitVerifying name, Act.skipped name], false, false, []⟩
          else downloadPhase env name [Act.emitVerifying name]
        | none => downloadPhase env name [Act.emitVerifying name]
      | none => downloadPhase env name [Act.emitVerifying name]
    else downloadPhase env name []

/-! Replay semantics for the shared counters.  The state is the pair of
the completed-files counter and the batch byte counter; both start at 0
when download_files begins (lines 34-35).  Each action yields the event
the corresponding emission site constructs: in every case the carried
counter fields equal the counter state immediately after the action. -/

/-- Apply one action to the counter state, producing the new state and
the emitted event; tf is the batch task count (total_files). -/
def stepAct (tf : Nat) (s : Nat × Nat) : Act → (Nat × Nat) × ProgressEvent
  | Act.emitVerifying f => (s, ⟨f, 0, 0, "Verifying", s.1, tf, s.2⟩)
  | Act.skipped f => ((s.1 + 1, s.2), ⟨f, 0, 0, "Skipped", s.1 + 1, tf, s.2⟩)
  | Act.chunk f dl tot n => ((s.1, s.2 + n), ⟨f, dl, tot, "Downloading", s.1, tf, s.2 + n⟩)
  | Act.finished f => ((s.1 + 1, s.2), ⟨f, 0, 0, "Finished", s.1 + 1, tf, s.2⟩)

/-- Replay the action list of a single worker running alone. -/
def replayActs (tf : Nat) : List Act → Nat × Nat → List ProgressEvent × (Nat × Nat)
  | [], s => ([], s)
  | a :: rest, s =>
    let p := stepAct tf s a
    let r := replayActs tf rest p.1
    (p.2 :: r.1, r.2)

/-- Replay an interleaved schedule of worker actions, each tagged with
the index of the worker that performs it. -/
def replayTagged (tf : Nat) : List (Nat × Act) → Nat × Nat → List (Nat × ProgressEvent) × (Nat × Nat)
  | [], s => ([], s)
  | (i, a) :: rest, s =>
    let p := stepAct tf s a
    let r := replayTagged tf rest p.1
    ((i, p.2) :: r.1, r.2)

/-- Decide whether a tagged schedule is an interleaving of the given
per-worker action traces: consuming the schedule in order must consume
each trace in order, and at the end every trace must be exhausted. -/
def isInterleaving : List (Nat × Act) → List (List Act) → Bool
  | [], traces => traces.all List.isEmpty
  | (i, a) :: s, traces =>
    match traces[i]? with
    | some (b :: rest) => decide (a = b) && isInterleaving s (traces.set i rest)
    | _ => false

/-- Action that performs the terminal completed-files increment. -/
def isTermAct : Act → Bool
  | Act.skipped _ => true
  | Act.finished _ => true
  | _ => false

/-- The per-worker action traces of a batch, one per task, each task
paired with its oracle environment. -/
def workerTraces (tasks : List (DownloadTask × Env)) : List (List Act) :=
  tasks.map (fun te => (workerRun te.2 te.1).acts)

/-! Batch orchestrator, downloader.rs lines 28-163. -/

/-- One event visible to the window observer. -/
inductive BatchEvent where
  | start (n : Nat) : BatchEvent
  | progress (worker : Nat) (e : ProgressEvent) : BatchEvent
  | complete : BatchEvent
deriving DecidableEq, Repr

/-- Event trace of one batch over a given interleaved schedule: the
download-start event carrying the task count, then every progress event
of the replay, then the download-complete event. -/
def batchTrace (tasks : List (DownloadTask × Env)) (sched : List (Nat × Act)) : List BatchEvent :=
  BatchEvent.start tasks.length ::
    ((replayTagged tasks.length sched (0, 0)).1.map (fun p => BatchEvent.progress p.1 p.2) ++
      [BatchEvent.complete])

/-- download_files, downloader.rs lines 28-163: a client build failure
returns that error before any event; a worker panic propagates out of
the collect await and the function neither completes its trace nor
returns (modelled as none); otherwise the collected worker results are
discarded unread and the function returns Ok together with the full
event trace. -/
def download_files (clientBuild : Option String) (tasks : List (DownloadTask × Env))
    (sched : List (Nat × Act)) : Option (Except String Unit × List BatchEvent) :=
  match clientBuild with
  | some e => some (Except.error e, [])
  | none =>
    if tasks.any (fun te => decide ((workerRun te.2 te.1).outcome = Outcome.panicked)) then none
    else some (Except.ok (), batchTrace tasks sched)

/-- Decide whether a batch event is a progress event. -/
def isProgressEvent : BatchEvent → Bool
  | BatchEvent.progress _ _ => true
  | _ => false

/-- Decide whether a batch event is the completion event. -/
def isCompleteEvent : BatchEvent → Bool
  | BatchEvent.complete => true
  | _ => false

/-! Scheduler admission model, downloader.rs lines 33 and 156-159.  A
task future is pending until the buffer_unordered combinator with its
fixed fan-out of 10 starts polling it (admitted); its first await
acquires a permit from the semaphore created with max_concurrent
permits, after which it is running; finishing releases both the permit
and the fan-out slot. -/

/-- Phase of one task future in the scheduler. -/
inductive Phase where
  | pending : Phase
  | admitted : Phase
  | running : Phase
  | done : Phase
deriving DecidableEq, Repr

/-- Task futures being driven by the stream combinator. -/
def isActive : Phase → Bool
  | Phase.admitted => true
  | Phase.running => true
  | _ => false

/-- Task futures holding a semaphore permit, past the pre-flight and in
active transfer. -/
def isRunning : Phase → Bool
  | Phase.running => true
  | _ => false

/-- One scheduler transition with permit pool size limitN: admission is
gated by the fixed fan-out of 10 of buffer_unordered, permit acquisition
by the semaphore, and finishing releases both. -/
inductive SchedStep (limitN : Nat) : List Phase → List Phase → Prop
  | spawn (l : List Phase) (i : Nat) :
      l[i]? = some Phase.pending → l.countP isActive < 10 →
      SchedStep limitN l (l.set i Phase.admitted)
  | acquire (l : List Phase) (i : Nat) :
      l[i]? = some Phase.admitted → l.countP isRunning < limitN →
      SchedStep limitN l (l.set i Phase.running)
  | finish (l : List Phase) (i : Nat) :
      l[i]? = some Phase.running →
      SchedStep limitN l (l.set i Phase.done)

/-- States reachable by the scheduler of a batch of m tasks run with
permit pool size limitN, starting with every task pending. -/
inductive SchedReach (limitN m : Nat) : List Phase → Prop
  | init : SchedReach limitN m (List.replicate m Phase.pending)
  | step {l l2 : List Phase} : SchedReach limitN m l → SchedStep limitN l l2 → SchedReach limitN m l2

/-! Specification-side helper used to state the streaming claim: the
expected Downloading events for a chunk list, given the running per-file
total d and byte-counter value b before the first listed chunk. -/

/-- Expected Downloading events for a list of chunks. -/
def cumEvents (file : String) (tot tf c0 : Nat) : List (List Nat) → Nat → Nat → List ProgressEvent
  | [], _, _ => []
  | c :: rest, d, b =>
    ⟨file, d + c.length, tot, "Downloading", c0, tf, b + c.length⟩ ::
      cumEvents file tot tf c0 rest (d + c.length) (b + c.length)

/-- ASCII lowercase mapping on a character, used to state that two hex
strings denote the same byte value up to letter case. -/
def charLower (c : Char) : Char :=
  if 65 ≤ c.toNat ∧ c.toNat ≤ 90 then Char.ofNat (c.toNat + 32) else c

/-- ASCII lowercase mapping on a string. -/
def strLower (s : String) : String := String.mk (s.data.map charLower)

/-! Basic lemmas about the replay semantics. -/

/-- Replay distributes over act-list concatenation. -/
theorem replayActs_append (tf : Nat) (l1 l2 : List Act) (s : Nat × Nat) :
    replayActs tf (l1 ++ l2) s =
      ((replayActs tf l1 s).1 ++ (replayActs tf l2 (replayActs tf l1 s).2).1,
       (replayActs tf l2 (replayActs tf l1 s).2).2) := by
  induction l1 generalizing s with
  | nil => simp [replayActs]
  | cons a rest ih => simp [replayActs, ih]

/-- Every replayed event has one of the four emitted statuses. -/
theorem replayActs_status (tf : Nat) (acts : List Act) (s : Nat × Nat) :
    ∀ ev ∈ (replayActs tf acts s).1,
      ev.status = "Downloading" ∨ ev.status = "Verifying" ∨
      ev.status = "Skipped" ∨ ev.status = "Finished" := by
  induction acts generalizing s with
  | nil => intro ev h; simp [replayActs] at h
  | cons a rest ih =>
    intro ev h
    simp only [replayActs, List.mem_cons] at h
    rcases h with rfl | h
    · cases a <;> simp [stepAct]
    · exact ih _ ev h

/-- C10: when the destination path has no final file-name component, the
worker unwraps a none and panics before performing any check, download,
or event emission: its outcome is panicked, it performs no shared-state
action, issues no request, creates no file and writes nothing. -/
theorem missing_file_name_panics (env : Env) (task : DownloadTask)
    (h : fileName task.path = none) :
    workerRun env task = ⟨Outcome.panicked, [], false, false, []⟩ := by
  unfold workerRun
  rw [h]

/-- Witness for C10: a destination path ending in a parent-directory
component has no file name, and the worker panics on it. -/
theorem missing_file_name_panics_witness :
    workerRun ⟨false, none, none, Except.error "offline"⟩
        ⟨"u", [PathComp.normal "a", PathComp.parentDir], none⟩ =
      ⟨Outcome.panicked, [], false, false, []⟩ :=
  missing_file_name_panics _ _ rfl

/-- C1: when the destination exists and its SHA-1 digest matches the
supplied expected digest, the worker emits Verifying, performs the
terminal completed-files increment, emits Skipped carrying the
post-increment counter value, and returns Ok with no HTTP request, no
file creation, no write, and the batch byte counter unchanged. -/
theorem skip_path_behavior (env : Env) (task : DownloadTask) (name expected : String)
    (data : List Nat) (tf c0 b0 : Nat)
    (h1 : fileName task.path = some name) (h2 : env.fsExists = true)
    (h3 : task.sha1 = some expected) (h4 : env.fsRead = some data)
    (h5 : hexEncode (sha1 data) = expected) :
    workerRun env task =
      ⟨Outcome.ok, [Act.emitVerifying name, Act.skipped name], false, false, []⟩ ∧
    replayActs tf [Act.emitVerifying name, Act.skipped name] (c0, b0) =
      ([⟨name, 0, 0, "Verifying", c0, tf, b0⟩, ⟨name, 0, 0, "Skipped", c0 + 1, tf, b0⟩],
       (c0 + 1, b0)) := by
  constructor
  · unfold workerRun
    rw [h1, h3, h4]
    simp [h2, h5]
  · rfl

set_option maxRecDepth 100000 in
/-- Witness for C1: an empty existing destination whose lowercase hex
SHA-1 digest is the supplied expected digest is skipped. -/
theorem skip_path_behavior_witness :
    workerRun ⟨true, some [], none, Except.error "offline"⟩
        ⟨"u", [PathComp.normal "f"], some "da39a3ee5e6b4b0d3255bfef95601890afd80709"⟩ =
      ⟨Outcome.ok, [Act.emitVerifying "f", Act.skipped "f"], false, false, []⟩ ∧
    replayActs 1 [Act.emitVerifying "f", Act.skipped "f"] (0, 0) =
      ([⟨"f", 0, 0, "Verifying", 0, 1, 0⟩, ⟨"f", 0, 0, "Skipped", 1, 1, 0⟩], (1, 0)) :=
  skip_path_behavior ⟨true, some [], none, Except.error "offline"⟩
    ⟨"u", [PathComp.normal "f"], some "da39a3ee5e6b4b0d3255bfef95601890afd80709"⟩
    "f" "da39a3ee5e6b4b0d3255bfef95601890afd80709" [] 1 0 0
    rfl rfl rfl rfl (by decide)

/-- C7: every event a worker causes to be emitted has a status in the
closed set Downloading, Verifying, Skipped, Finished; in particular no
event with status Error is ever emitted on any path. -/
theorem no_error_status (env : Env) (task : DownloadTask) (tf c0 b0 : Nat) :
    ∀ ev ∈ (replayActs tf (workerRun env task).acts (c0, b0)).1,
      (ev.status = "Downloading" ∨ ev.status = "Verifying" ∨
        ev.status = "Skipped" ∨ ev.status = "Finished") ∧ ev.status ≠ "Error" := by
  intro ev h
  have hs := replayActs_status tf (workerRun env task).acts (c0, b0) ev h
  refine ⟨hs, ?_⟩
  rcases hs with h1 | h1 | h1 | h1 <;> rw [h1] <;> decide

/-- Witness for C7: the Verifying event emitted by a worker whose
request then fails has a non-Error status. -/
theorem no_error_status_witness :
    (ProgressEvent.mk "f" 0 0 "Verifying" 0 1 0).status = "Verifying" ∧
    (ProgressEvent.mk "f" 0 0 "Verifying" 0 1 0).status ≠ "Error" := by
  have h := no_error_status ⟨true, none, none, Except.error "offline"⟩
    ⟨"u", [PathComp.normal "f"], none⟩ 1 0 0
    (ProgressEvent.mk "f" 0 0 "Verifying" 0 1 0) (by decide)
  exact ⟨rfl, h.2⟩

/-! Branch structure of the worker. -/

/-- The download phase always issues the HTTP GET. -/
theorem downloadPhase_httpRequested (env : Env) (name : String) (pre : List Act) :
    (downloadPhase env name pre).httpRequested = true := by
  unfold downloadPhase
  cases env.http with
  | error e => rfl
  | ok resp =>
    cases env.createResult with
    | some e => rfl
    | none =>
      cases hrc : (runChunks name (resp.contentLength.getD 0) 0 resp.body resp.streamEnd).1 <;>
        simp [hrc]

/-- A worker that issued the HTTP GET ran the download phase, with an
action prefix that is either empty or the single Verifying emission. -/
theorem workerRun_http_branch (env : Env) (task : DownloadTask)
    (h : (workerRun env task).httpRequested = true) :
    ∃ name, fileName task.path = some name ∧
      (workerRun env task = downloadPhase env name [] ∨
       workerRun env task = downloadPhase env name [Act.emitVerifying name]) := by
  unfold workerRun at h ⊢
  cases hf : fileName task.path with
  | none =>
    rw [hf] at h
    simp at h
  | some name =>
    rw [hf] at h
    refine ⟨name, rfl, ?_⟩
    by_cases he : env.fsExists = true
    · cases hs : task.sha1 with
      | none => right; simp [he]
      | some expected =>
        cases hr : env.fsRead with
        | none => right; simp [he]
        | some data =>
          by_cases hx : hexEncode (sha1 data) = expected
          · simp [he, hs, hr, hx] at h
          · right; simp [he, hx]
    · left; simp [he]

/-- C4: when the HTTP GET fails to be issued, the worker returns the
descriptive Request error immediately, does not create or truncate the
destination and writes nothing, performs no completed-files increment
and leaves both counters unchanged, and emits no Finished or Skipped
event for the task. -/
theorem request_error_behavior (env : Env) (task : DownloadTask) (e : String)
    (tf c0 b0 : Nat)
    (hreq : (workerRun env task).httpRequested = true)
    (herr : env.http = Except.error e) :
    (workerRun env task).outcome = Outcome.error ("Request error: " ++ e) ∧
    (workerRun env task).fileCreated = false ∧
    (workerRun env task).written = [] ∧
    (replayActs tf (workerRun env task).acts (c0, b0)).2 = (c0, b0) ∧
    (∀ ev ∈ (replayActs tf (workerRun env task).acts (c0, b0)).1,
      ev.status ≠ "Finished" ∧ ev.status ≠ "Skipped") := by
  obtain ⟨name, hf, hcase⟩ := workerRun_http_branch env task hreq
  rcases hcase with hw | hw <;> rw [hw] <;>
    simp [downloadPhase, herr, replayActs, stepAct]

/-- Witness for C4: a worker for a missing destination whose GET fails
returns the Request error, touches no file and increments nothing. -/
theorem request_error_behavior_witness :
    (workerRun ⟨false, none, none, Except.error "dns failure"⟩
        ⟨"u", [PathComp.normal "f"], none⟩).outcome =
      Outcome.error ("Request error: " ++ "dns failure") ∧
    (workerRun ⟨false, none, none, Except.error "dns failure"⟩
        ⟨"u", [PathComp.normal "f"], none⟩).fileCreated = false ∧
    (workerRun ⟨false, none, none, Except.error "dns failure"⟩
        ⟨"u", [PathComp.normal "f"], none⟩).written = [] ∧
    (replayActs 1 (workerRun ⟨false, none, none, Except.error "dns failure"⟩
        ⟨"u", [PathComp.normal "f"], none⟩).acts (0, 0)).2 = (0, 0) ∧
    (∀ ev ∈ (replayActs 1 (workerRun ⟨false, none, none, Except.error "dns failure"⟩
        ⟨"u", [PathComp.normal "f"], none⟩).acts (0, 0)).1,
      ev.status ≠ "Finished" ∧ ev.status ≠ "Skipped") :=
  request_error_behavior ⟨false, none, none, Except.error "dns failure"⟩
    ⟨"u", [PathComp.normal "f"], none⟩ "dns failure" 1 0 0 (by decide) rfl

/-! The digest comparison in the pre-flight check. -/

set_option maxRecDepth 100000 in
/-- Counterexample to C5 as stated: the comparison of the computed
digest with the supplied expected digest is exact string equality
against the lowercase hex encoding, not case-insensitive.  For an empty
existing destination, the lowercase rendition of its digest matches and
the worker skips without network access, while the uppercase rendition
of the very same 20-byte value (its toLower equals the lowercase
rendition) does not match and the worker issues the GET. -/
theorem digest_case_sensitivity_counterexample :
    strLower "DA39A3EE5E6B4B0D3255BFEF95601890AFD80709" =
      "da39a3ee5e6b4b0d3255bfef95601890afd80709" ∧
    (workerRun ⟨true, some [], none, Except.error "offline"⟩
        ⟨"u", [PathComp.normal "f"],
          some "da39a3ee5e6b4b0d3255bfef95601890afd80709"⟩).httpRequested = false ∧
    (workerRun ⟨true, some [], none, Except.error "offline"⟩
        ⟨"u", [PathComp.normal "f"],
          some "DA39A3EE5E6B4B0D3255BFEF95601890AFD80709"⟩).httpRequested = true := by
  refine ⟨?_, by decide, by decide⟩
  decide

/-- C5 amended: when the destination exists with a supplied expected
digest and readable content, any expected string that is not exactly the
lowercase hex encoding of the computed digest fails the comparison, even
when it denotes the same digest value in another letter case, and the
worker falls through to the download phase and issues the GET. -/
theorem digest_exact_comparison (env : Env) (task : DownloadTask)
    (name expected : String) (data : List Nat)
    (hf : fileName task.path = some name)
    (he : env.fsExists = true)
    (hs : task.sha1 = some expected)
    (hr : env.fsRead = some data)
    (hne : expected ≠ hexEncode (sha1 data)) :
    workerRun env task = downloadPhase env name [Act.emitVerifying name] ∧
    (workerRun env task).httpRequested = true := by
  have hx : ¬(hexEncode (sha1 data) = expected) := fun hh => hne hh.symm
  have hmain : workerRun env task = downloadPhase env name [Act.emitVerifying name] := by
    unfold workerRun
    rw [hf, hs, hr]
    simp [he, hx]
  exact ⟨hmain, by rw [hmain]; exact downloadPhase_httpRequested env name _⟩

set_option maxRecDepth 100000 in
/-- Witness for the amended C5: the uppercase rendition of the correct
digest of the empty destination is rejected and the GET is issued. -/
theorem digest_exact_comparison_witness :
    workerRun ⟨true, some [], none, Except.error "offline"⟩
        ⟨"u", [PathComp.normal "f"],
          some "DA39A3EE5E6B4B0D3255BFEF95601890AFD80709"⟩ =
      downloadPhase ⟨true, some [], none, Except.error "offline"⟩ "f"
        [Act.emitVerifying "f"] ∧
    (workerRun ⟨true, some [], none, Except.error "offline"⟩
        ⟨"u", [PathComp.normal "f"],
          some "DA39A3EE5E6B4B0D3255BFEF95601890AFD80709"⟩).httpRequested = true :=
  digest_exact_comparison ⟨true, some [], none, Except.error "offline"⟩
    ⟨"u", [PathComp.normal "f"], some "DA39A3EE5E6B4B0D3255BFEF95601890AFD80709"⟩
    "f" "DA39A3EE5E6B4B0D3255BFEF95601890AFD80709" []
    rfl rfl rfl rfl (by decide)

/-! Streaming lemmas. -/

/-- When every chunk write succeeds and the stream ends cleanly, the
streaming loop reports no error. -/
theorem runChunks_no_err (file : String) (tot : Nat) :
    ∀ (body : List (List Nat × Option String)) (d : Nat),
      (∀ c ∈ body, c.2 = none) →
      (runChunks file tot d body none).1 = none := by
  intro body
  induction body with
  | nil => intro d _; rfl
  | cons cw rest ih =>
    intro d hw
    obtain ⟨c, w⟩ := cw
    have hwnone : w = none := hw (c, w) (List.mem_cons_self _ _)
    subst hwnone
    simpa [runChunks] using ih (d + c.length) (fun c hc => hw c (List.mem_cons_of_mem _ hc))

/-- When every chunk write succeeds and the stream ends cleanly, the
bytes appended to the file are exactly the concatenation of the chunks. -/
theorem runChunks_written (file : String) (tot : Nat) :
    ∀ (body : List (List Nat × Option String)) (d : Nat),
      (∀ c ∈ body, c.2 = none) →
      (runChunks file tot d body none).2.2 = (body.map Prod.fst).flatten := by
  intro body
  induction body with
  | nil => intro d _; rfl
  | cons cw rest ih =>
    intro d hw
    obtain ⟨c, w⟩ := cw
    have hwnone : w = none := hw (c, w) (List.mem_cons_self _ _)
    subst hwnone
    simp [runChunks, ih (d + c.length) (fun c hc => hw c (List.mem_cons_of_mem _ hc))]

/-- Replay of the streaming actions: for each chunk the per-file running
total is the cumulative length of the chunks so far, the carried total
is the declared content length, and the byte counter carries the fresh
post-increment value; the final byte counter has grown by the total
length of the received body. -/
theorem runChunks_replay (file : String) (tot tf c0 : Nat) :
    ∀ (body : List (List Nat × Option String)) (d b : Nat),
      (∀ c ∈ body, c.2 = none) →
      replayActs tf (runChunks file tot d body none).2.1 (c0, b) =
        (cumEvents file tot tf c0 (body.map Prod.fst) d b,
         (c0, b + ((body.map Prod.fst).map List.length).sum)) := by
  intro body
  induction body with
  | nil => intro d b _; rfl
  | cons cw rest ih =>
    intro d b hw
    obtain ⟨c, w⟩ := cw
    have hwnone : w = none := hw (c, w) (List.mem_cons_self _ _)
    subst hwnone
    have ihr := ih (d + c.length) (b + c.length)
      (fun c hc => hw c (List.mem_cons_of_mem _ hc))
    simp [runChunks, replayActs, stepAct, cumEvents, ihr, Nat.add_assoc]

/-- C3: during a streamed fetch of a fresh destination, each received
chunk is appended to the file, the byte counter grows by the chunk
length with its fetched post-increment value carried by the Downloading
event, and each Downloading event carries the per-file running total and
the declared content length; the stream then ends with the terminal
Finished action. -/
theorem streaming_chunk_events (env : Env) (task : DownloadTask) (resp : HttpOk)
    (name : String) (tf c0 b0 : Nat)
    (hf : fileName task.path = some name)
    (hex : env.fsExists = false)
    (hok : env.http = Except.ok resp)
    (hcreate : env.createResult = none)
    (hw : ∀ c ∈ resp.body, c.2 = none)
    (hend : resp.streamEnd = none) :
    (workerRun env task).written = (resp.body.map Prod.fst).flatten ∧
    replayActs tf (workerRun env task).acts (c0, b0) =
      (cumEvents name (resp.contentLength.getD 0) tf c0 (resp.body.map Prod.fst) 0 b0 ++
        [⟨name, 0, 0, "Finished", c0 + 1, tf,
          b0 + ((resp.body.map Prod.fst).map List.length).sum⟩],
       (c0 + 1, b0 + ((resp.body.map Prod.fst).map List.length).sum)) := by
  have hwr : workerRun env task = downloadPhase env name [] := by
    unfold workerRun
    rw [hf]
    simp [hex]
  have herr := runChunks_no_err name (resp.contentLength.getD 0) resp.body 0 hw
  have hdp : downloadPhase env name [] =
      ⟨Outcome.ok,
       (runChunks name (resp.contentLength.getD 0) 0 resp.body none).2.1 ++
         [Act.finished name], true, true,
       (runChunks name (resp.contentLength.getD 0) 0 resp.body none).2.2⟩ := by
    simp only [downloadPhase, hok, hcreate, hend]
    rw [herr]
    simp
  rw [hwr, hdp]
  constructor
  · exact runChunks_written name (resp.contentLength.getD 0) resp.body 0 hw
  · rw [replayActs_append, runChunks_replay name (resp.contentLength.getD 0) tf c0 resp.body 0 b0 hw]
    rfl

/-- Witness for C3: two chunks of two and one bytes produce two
Downloading events with running totals 2 and 3, batch byte counter
values 2 and 3, and the declared length 5, then Finished. -/
theorem streaming_chunk_events_witness :
    (workerRun ⟨false, none, none,
        Except.ok ⟨some 5, [([10, 20], none), ([30], none)], none⟩⟩
        ⟨"u", [PathComp.normal "f"], none⟩).written = [10, 20, 30] ∧
    replayActs 1 (workerRun ⟨false, none, none,
        Except.ok ⟨some 5, [([10, 20], none), ([30], none)], none⟩⟩
        ⟨"u", [PathComp.normal "f"], none⟩).acts (0, 0) =
      ([⟨"f", 2, 5, "Downloading", 0, 1, 2⟩, ⟨"f", 3, 5, "Downloading", 0, 1, 3⟩,
        ⟨"f", 0, 0, "Finished", 1, 1, 3⟩], (1, 3)) := by
  have h := streaming_chunk_events ⟨false, none, none,
      Except.ok ⟨some 5, [([10, 20], none), ([30], none)], none⟩⟩
    ⟨"u", [PathComp.normal "f"], none⟩
    ⟨some 5, [([10, 20], none), ([30], none)], none⟩ "f" 1 0 0
    rfl rfl rfl rfl (by decide) rfl
  exact ⟨h.1, by rw [h.2]; rfl⟩

/-- When the GET succeeds, file creation succeeds, every chunk write
succeeds and the stream ends cleanly, the download phase returns Ok and
its actions are the prefix, the chunk actions, and the terminal Finished
action. -/
theorem downloadPhase_ok (env : Env) (name : String) (pre : List Act) (resp : HttpOk)
    (hok : env.http = Except.ok resp) (hcreate : env.createResult = none)
    (hend : resp.streamEnd = none) (hw : ∀ c ∈ resp.body, c.2 = none) :
    downloadPhase env name pre =
      ⟨Outcome.ok,
       pre ++ (runChunks name (resp.contentLength.getD 0) 0 resp.body none).2.1 ++
         [Act.finished name], true, true,
       (runChunks name (resp.contentLength.getD 0) 0 resp.body none).2.2⟩ := by
  simp only [downloadPhase, hok, hcreate, hend]
  rw [runChunks_no_err name (resp.contentLength.getD 0) resp.body 0 hw]

/-- Every action produced by the streaming loop is a chunk action
carrying the declared total. -/
theorem runChunks_chunk_total (file : String) (tot : Nat) :
    ∀ (body : List (List Nat × Option String)) (d : Nat) (send : Option String),
      ∀ a ∈ (runChunks file tot d body send).2.1,
        ∀ f dl t n, a = Act.chunk f dl t n → t = tot := by
  intro body
  induction body with
  | nil =>
    intro d send a ha
    cases send <;> simp [runChunks] at ha
  | cons cw rest ih =>
    intro d send a ha
    obtain ⟨c, w⟩ := cw
    cases w with
    | some e => simp [runChunks] at ha
    | none =>
      simp only [runChunks, List.mem_cons] at ha
      rcases ha with rfl | ha
      · intro f dl t n h
        cases h
        rfl
      · exact ih (d + c.length) send a ha

/-- If every chunk action in a list carries total 0, every replayed
event carries total 0. -/
theorem replayActs_total_zero (tf : Nat) :
    ∀ (acts : List Act) (s : Nat × Nat),
      (∀ a ∈ acts, ∀ f dl t n, a = Act.chunk f dl t n → t = 0) →
      ∀ ev ∈ (replayActs tf acts s).1, ev.total = 0 := by
  intro acts
  induction acts with
  | nil => intro s _ ev h; simp [replayActs] at h
  | cons a rest ih =>
    intro s hz ev h
    simp only [replayActs, List.mem_cons] at h
    rcases h with rfl | h
    · cases a with
      | chunk f dl t n => exact hz _ (List.mem_cons_self _ _) f dl t n rfl
      | _ => rfl
    · exact ih _ (fun a ha => hz a (List.mem_cons_of_mem _ ha)) ev h

/-- C8: when the response carries no content-length header, the worker
does not fail on that account: the declared total is taken as 0, every
Downloading event for the file carries a zero total, and streaming
proceeds normally to the terminal Finished event with outcome Ok. -/
theorem unknown_length_behavior (env : Env) (task : DownloadTask) (resp : HttpOk)
    (tf c0 b0 : Nat)
    (hreq : (workerRun env task).httpRequested = true)
    (hok : env.http = Except.ok resp)
    (hlen : resp.contentLength = none)
    (hcreate : env.createResult = none)
    (hw : ∀ c ∈ resp.body, c.2 = none)
    (hend : resp.streamEnd = none) :
    (workerRun env task).outcome = Outcome.ok ∧
    (∀ ev ∈ (replayActs tf (workerRun env task).acts (c0, b0)).1,
      ev.status = "Downloading" → ev.total = 0) ∧
    ((replayActs tf (workerRun env task).acts (c0, b0)).1.getLast?.map
      ProgressEvent.status) = some "Finished" := by
  obtain ⟨name, hf, hcase⟩ := workerRun_http_branch env task hreq
  have hdp := fun pre => downloadPhase_ok env name pre resp hok hcreate hend hw
  have htot : ∀ pre : List Act,
      (∀ a ∈ pre, ∀ f dl t n, a = Act.chunk f dl t n → t = 0) →
      ∀ a ∈ pre ++ (runChunks name (resp.contentLength.getD 0) 0 resp.body none).2.1 ++
          [Act.finished name],
        ∀ f dl t n, a = Act.chunk f dl t n → t = 0 := by
    intro pre hpre a ha
    simp only [List.append_assoc, List.mem_append, List.mem_singleton] at ha
    rcases ha with ha | ha | rfl
    · exact hpre a ha
    · intro f dl t n h
      have := runChunks_chunk_total name (resp.contentLength.getD 0) resp.body 0 none a ha f dl t n h
      rw [this, hlen]
      rfl
    · intro f dl t n h
      cases h
  have hlast : ∀ pre : List Act,
      ((replayActs tf (pre ++ (runChunks name (resp.contentLength.getD 0) 0 resp.body none).2.1 ++
        [Act.finished name]) (c0, b0)).1.getLast?.map ProgressEvent.status) = some "Finished" := by
    intro pre
    rw [replayActs_append]
    generalize (replayActs tf (pre ++ (runChunks name (resp.contentLength.getD 0) 0
      resp.body none).2.1) (c0, b0)) = r
    rw [show (replayActs tf [Act.finished name] r.2) =
      ([⟨name, 0, 0, "Finished", r.2.1 + 1, tf, r.2.2⟩], (r.2.1 + 1, r.2.2)) from rfl]
    simp
  rcases hcase with hwr | hwr
  · rw [hwr, hdp []]
    refine ⟨rfl, fun ev hev _ => replayActs_total_zero tf _ _ (htot [] ?_) ev hev, hlast []⟩
    intro a ha
    simp at ha
  · rw [hwr, hdp [Act.emitVerifying name]]
    refine ⟨rfl, fun ev hev _ => replayActs_total_zero tf _ _
      (htot [Act.emitVerifying name] ?_) ev hev, hlast _⟩
    intro a ha f dl t n h
    simp at ha
    subst ha
    simp at h

/-- Witness for C8: a one-chunk response with no content-length yields a
Downloading event with total 0 and finishes with outcome Ok. -/
theorem unknown_length_behavior_witness :
    (workerRun ⟨false, none, none, Except.ok ⟨none, [([7], none)], none⟩⟩
        ⟨"u", [PathComp.normal "f"], none⟩).outcome = Outcome.ok ∧
    (∀ ev ∈ (replayActs 1 (workerRun ⟨false, none, none,
        Except.ok ⟨none, [([7], none)], none⟩⟩
        ⟨"u", [PathComp.normal "f"], none⟩).acts (0, 0)).1,
      ev.status = "Downloading" → ev.total = 0) ∧
    ((replayActs 1 (workerRun ⟨false, none, none,
        Except.ok ⟨none, [([7], none)], none⟩⟩
        ⟨"u", [PathComp.normal "f"], none⟩).acts (0, 0)).1.getLast?.map
      ProgressEvent.status) = some "Finished" :=
  unknown_length_behavior ⟨false, none, none, Except.ok ⟨none, [([7], none)], none⟩⟩
    ⟨"u", [PathComp.normal "f"], none⟩ ⟨none, [([7], none)], none⟩ 1 0 0
    (by decide) rfl rfl rfl (by decide) rfl

/-! Interleaved replay: monotonicity and counting lemmas for the shared
counters. -/

/-- The carried counter fields of a replayed event equal the counter
state immediately after the action. -/
theorem stepAct_event_counters (tf : Nat) (s : Nat × Nat) (a : Act) :
    (stepAct tf s a).2.completed_files = (stepAct tf s a).1.1 ∧
    (stepAct tf s a).2.total_downloaded_bytes = (stepAct tf s a).1.2 := by
  cases a <;> exact ⟨rfl, rfl⟩

/-- Every action can only grow the counters. -/
theorem stepAct_mono (tf : Nat) (s : Nat × Nat) (a : Act) :
    s.1 ≤ (stepAct tf s a).1.1 ∧ s.2 ≤ (stepAct tf s a).1.2 := by
  cases a <;> simp [stepAct]

/-- The completed-files increment of one action is 1 exactly on the two
terminal actions. -/
theorem stepAct_c_delta (tf : Nat) (s : Nat × Nat) (a : Act) :
    (stepAct tf s a).1.1 = s.1 + (if isTermAct a then 1 else 0) := by
  cases a <;> simp [stepAct, isTermAct]

/-- The final counters of a replay dominate the initial ones. -/
theorem replayTagged_state_mono (tf : Nat) :
    ∀ (sched : List (Nat × Act)) (s : Nat × Nat),
      s.1 ≤ (replayTagged tf sched s).2.1 ∧ s.2 ≤ (replayTagged tf sched s).2.2 := by
  intro sched
  induction sched with
  | nil => intro s; exact ⟨Nat.le_refl _, Nat.le_refl _⟩
  | cons p rest ih =>
    intro s
    obtain ⟨i, a⟩ := p
    have h1 := stepAct_mono tf s a
    have h2 := ih (stepAct tf s a).1
    simp only [replayTagged]
    exact ⟨Nat.le_trans h1.1 h2.1, Nat.le_trans h1.2 h2.2⟩

/-- Every replayed event carries counter values between the initial and
the final counter state of the replay. -/
theorem replayTagged_event_bounds (tf : Nat) :
    ∀ (sched : List (Nat × Act)) (s : Nat × Nat),
      ∀ p ∈ (replayTagged tf sched s).1,
        s.1 ≤ p.2.completed_files ∧ p.2.completed_files ≤ (replayTagged tf sched s).2.1 ∧
        s.2 ≤ p.2.total_downloaded_bytes ∧
        p.2.total_downloaded_bytes ≤ (replayTagged tf sched s).2.2 := by
  intro sched
  induction sched with
  | nil => intro s p h; simp [replayTagged] at h
  | cons q rest ih =>
    intro s p h
    obtain ⟨i, a⟩ := q
    simp only [replayTagged, List.mem_cons] at h
    have hev := stepAct_event_counters tf s a
    have hmono := stepAct_mono tf s a
    have hrest := replayTagged_state_mono tf rest (stepAct tf s a).1
    rcases h with rfl | h
    · simp only [replayTagged]
      exact ⟨hev.1 ▸ hmono.1, hev.1 ▸ hrest.1, hev.2 ▸ hmono.2, hev.2 ▸ hrest.2⟩
    · have := ih (stepAct tf s a).1 p h
      simp only [replayTagged]
      exact ⟨Nat.le_trans hmono.1 this.1, this.2.1,
        Nat.le_trans hmono.2 this.2.2.1, this.2.2.2⟩

/-- Along any replayed schedule, the carried counter fields of the
events are non-decreasing in emission order. -/
theorem replayTagged_pairwise (tf : Nat) :
    ∀ (sched : List (Nat × Act)) (s : Nat × Nat),
      (replayTagged tf sched s).1.Pairwise
        (fun p q => p.2.completed_files ≤ q.2.completed_files ∧
          p.2.total_downloaded_bytes ≤ q.2.total_downloaded_bytes) := by
  intro sched
  induction sched with
  | nil => intro s; simp [replayTagged]
  | cons q rest ih =>
    intro s
    obtain ⟨i, a⟩ := q
    simp only [replayTagged]
    refine List.Pairwise.cons ?_ (ih (stepAct tf s a).1)
    intro p hp
    have hev := stepAct_event_counters tf s a
    have hb := replayTagged_event_bounds tf rest (stepAct tf s a).1 p hp
    exact ⟨hev.1 ▸ hb.1, hev.2 ▸ hb.2.2.1⟩

/-- The final completed-files counter of a replay is the initial value
plus the number of terminal actions in the schedule. -/
theorem replayTagged_final_c (tf : Nat) :
    ∀ (sched : List (Nat × Act)) (s : Nat × Nat),
      (replayTagged tf sched s).2.1 = s.1 + sched.countP (fun p => isTermAct p.2) := by
  intro sched
  induction sched with
  | nil => intro s; simp [replayTagged]
  | cons q rest ih =>
    intro s
    obtain ⟨i, a⟩ := q
    simp only [replayTagged, List.countP_cons]
    rw [ih (stepAct tf s a).1, stepAct_c_delta tf s a]
    by_cases h : isTermAct a
    · simp only [h, if_true]
      omega
    · simp only [h, if_false]
      omega

/-- Replacing the entry at a valid index changes a mapped sum by the
difference of the images. -/
theorem sum_map_set (f : List Act → Nat) :
    ∀ (l : List (List Act)) (i : Nat) (x y : List Act),
      l[i]? = some x → ((l.set i y).map f).sum + f x = (l.map f).sum + f y := by
  intro l
  induction l with
  | nil => intro i x y h; simp at h
  | cons z tl ih =>
    intro i x y h
    cases i with
    | zero =>
      simp only [List.getElem?_cons_zero, Option.some.injEq] at h
      subst h
      simp only [List.set_cons_zero, List.map_cons, List.sum_cons]
      omega
    | succ j =>
      simp only [List.getElem?_cons_succ] at h
      have := ih j x y h
      simp only [List.set_cons_succ, List.map_cons, List.sum_cons]
      omega

/-- All-empty traces contribute an empty count. -/
theorem sum_countP_nil (p : Act → Bool) :
    ∀ traces : List (List Act), traces.all List.isEmpty = true →
      (traces.map (fun t => t.countP p)).sum = 0 := by
  intro traces
  induction traces with
  | nil => intro _; rfl
  | cons t tl ih =>
    intro h
    simp only [List.all_cons, Bool.and_eq_true] at h
    have ht : t = [] := List.isEmpty_iff.mp h.1
    subst ht
    simp [ih h.2]

/-- Counting over an interleaved schedule equals the summed counts over
the per-worker traces. -/
theorem isInterleaving_countP (p : Act → Bool) :
    ∀ (sched : List (Nat × Act)) (traces : List (List Act)),
      isInterleaving sched traces = true →
      sched.countP (fun q => p q.2) = (traces.map (fun t => t.countP p)).sum := by
  intro sched
  induction sched with
  | nil =>
    intro traces h
    simp only [isInterleaving] at h
    simp [sum_countP_nil p traces h]
  | cons q s ih =>
    obtain ⟨i, a⟩ := q
    intro traces h
    simp only [isInterleaving] at h
    cases hi : traces[i]? with
    | none => rw [hi] at h; simp at h
    | some t =>
      rw [hi] at h
      cases t with
      | nil => simp at h
      | cons b rest =>
        simp only [Bool.and_eq_true, decide_eq_true_eq] at h
        obtain ⟨hab, hrec⟩ := h
        subst hab
        have hih := ih (traces.set i rest) hrec
        have hset := sum_map_set (fun t => t.countP p) traces i (a :: rest) rest hi
        simp only [List.countP_cons] at hset ⊢
        rw [hih]
        omega

/-- The streaming loop performs no terminal action. -/
theorem runChunks_countTerm (file : String) (tot : Nat) :
    ∀ (body : List (List Nat × Option String)) (d : Nat) (send : Option String),
      ((runChunks file tot d body send).2.1).countP isTermAct = 0 := by
  intro body
  induction body with
  | nil => intro d send; cases send <;> rfl
  | cons cw rest ih =>
    intro d send
    obtain ⟨c, w⟩ := cw
    cases w with
    | some e => rfl
    | none => simp [runChunks, List.countP_cons, isTermAct, ih (d + c.length) send]

/-- The download phase performs exactly one terminal action when it
returns Ok and none otherwise, beyond a terminal-free prefix. -/
theorem downloadPhase_countTerm (env : Env) (name : String) (pre : List Act)
    (hpre : pre.countP isTermAct = 0) :
    ((downloadPhase env name pre).acts).countP isTermAct =
      if (downloadPhase env name pre).outcome = Outcome.ok then 1 else 0 := by
  unfold downloadPhase
  cases hh : env.http with
  | error e => simp [hpre]
  | ok resp =>
    cases hcr : env.createResult with
    | some e => simp [hpre]
    | none =>
      cases hrc : (runChunks name (resp.contentLength.getD 0) 0 resp.body resp.streamEnd).1 with
      | some e => simp [hrc, List.countP_append, hpre, runChunks_countTerm]
      | none => simp [hrc, List.countP_append, hpre, runChunks_countTerm, isTermAct]

/-- A worker that did not issue the GET either panicked with no actions
or skipped with the Verifying and Skipped actions. -/
theorem workerRun_no_http (env : Env) (task : DownloadTask)
    (h : (workerRun env task).httpRequested = false) :
    workerRun env task = ⟨Outcome.panicked, [], false, false, []⟩ ∨
    ∃ name, workerRun env task =
      ⟨Outcome.ok, [Act.emitVerifying name, Act.skipped name], false, false, []⟩ := by
  unfold workerRun at h ⊢
  cases hf : fileName task.path with
  | none => left; rfl
  | some name =>
    rw [hf] at h
    by_cases he : env.fsExists = true
    · cases hs : task.sha1 with
      | none => simp [he, hs, downloadPhase_httpRequested] at h
      | some expected =>
        cases hr : env.fsRead with
        | none => simp [he, hs, hr, downloadPhase_httpRequested] at h
        | some data =>
          by_cases hx : hexEncode (sha1 data) = expected
          · right
            refine ⟨name, ?_⟩
            simp [he, hx]
          · simp [he, hs, hr, hx, downloadPhase_httpRequested] at h
    · simp [he, downloadPhase_httpRequested] at h

/-- A worker performs exactly one terminal action when its outcome is
Ok, and none otherwise. -/
theorem workerRun_countTerm (env : Env) (task : DownloadTask) :
    ((workerRun env task).acts).countP isTermAct =
      if (workerRun env task).outcome = Outcome.ok then 1 else 0 := by
  by_cases hreq : (workerRun env task).httpRequested = true
  · obtain ⟨name, hf, hcase⟩ := workerRun_http_branch env task hreq
    rcases hcase with hwr | hwr <;> rw [hwr]
    · exact downloadPhase_countTerm env name [] rfl
    · exact downloadPhase_countTerm env name [Act.emitVerifying name] rfl
  · have h : (workerRun env task).httpRequested = false := by
      simpa using hreq
    rcases workerRun_no_http env task h with hwr | ⟨name, hwr⟩ <;> rw [hwr] <;> rfl

/-- Summing the per-task terminal indicator counts the Ok workers. -/
theorem sum_ite_count (tasks : List (DownloadTask × Env)) :
    (tasks.map (fun te => if (workerRun te.2 te.1).outcome = Outcome.ok then 1 else 0)).sum =
      tasks.countP (fun te => decide ((workerRun te.2 te.1).outcome = Outcome.ok)) := by
  induction tasks with
  | nil => rfl
  | cons t tl ih =>
    simp only [List.map_cons, List.sum_cons, List.countP_cons, ih]
    by_cases h : (workerRun t.2 t.1).outcome = Outcome.ok
    · simp [h, Nat.add_comm]
    · simp [h]

/-- C6: over any interleaved schedule of the worker traces of a batch,
the counter values carried by the successive events of any single worker
are monotonically non-decreasing for both counters, the completed-files
value of every event is at most the number of tasks, and the final
completed-files counter equals the number of workers whose outcome is Ok,
that is, the number of tasks that reached the terminal Skipped or
Finished state. -/
theorem counter_monotonicity_and_total (tasks : List (DownloadTask × Env))
    (sched : List (Nat × Act))
    (hI : isInterleaving sched (workerTraces tasks) = true) :
    (∀ i, ((replayTagged tasks.length sched (0, 0)).1.filter (fun p => p.1 == i)).Pairwise
        (fun p q => p.2.completed_files ≤ q.2.completed_files ∧
          p.2.total_downloaded_bytes ≤ q.2.total_downloaded_bytes)) ∧
    (∀ p ∈ (replayTagged tasks.length sched (0, 0)).1,
      p.2.completed_files ≤ tasks.length) ∧
    (replayTagged tasks.length sched (0, 0)).2.1 =
      tasks.countP (fun te => decide ((workerRun te.2 te.1).outcome = Outcome.ok)) := by
  have hfinal : (replayTagged tasks.length sched (0, 0)).2.1 =
      tasks.countP (fun te => decide ((workerRun te.2 te.1).outcome = Outcome.ok)) := by
    rw [replayTagged_final_c]
    rw [isInterleaving_countP isTermAct sched (workerTraces tasks) hI]
    simp only [workerTraces, List.map_map]
    have hmap : tasks.map ((fun t => t.countP isTermAct) ∘ (fun te => (workerRun te.2 te.1).acts)) =
        tasks.map (fun te => if (workerRun te.2 te.1).outcome = Outcome.ok then 1 else 0) := by
      apply List.map_congr_left
      intro te _
      exact workerRun_countTerm te.2 te.1
    rw [hmap, sum_ite_count]
    omega
  refine ⟨?_, ?_, hfinal⟩
  · intro i
    exact List.Pairwise.sublist (List.filter_sublist _)
      (replayTagged_pairwise tasks.length sched (0, 0))
  · intro p hp
    have hb := replayTagged_event_bounds tasks.length sched (0, 0) p hp
    have hle := hb.2.1
    rw [hfinal] at hle
    exact Nat.le_trans hle (List.countP_le_length _)

/-- Witness for C6: a two-task batch, one task finishing and one failing
at request time, has final completed-files counter equal to the number
of Ok workers. -/
theorem counter_monotonicity_and_total_witness :
    (replayTagged 2 [(0, Act.finished "a")] (0, 0)).2.1 =
      [((⟨"u", [PathComp.normal "a"], none⟩ : DownloadTask),
        (⟨false, none, none, Except.ok ⟨none, [], none⟩⟩ : Env)),
       ((⟨"v", [PathComp.normal "b"], none⟩ : DownloadTask),
        (⟨false, none, none, Except.error "x"⟩ : Env))].countP
        (fun te => decide ((workerRun te.2 te.1).outcome = Outcome.ok)) :=
  (counter_monotonicity_and_total
    [((⟨"u", [PathComp.normal "a"], none⟩ : DownloadTask),
      (⟨false, none, none, Except.ok ⟨none, [], none⟩⟩ : Env)),
     ((⟨"v", [PathComp.normal "b"], none⟩ : DownloadTask),
      (⟨false, none, none, Except.error "x"⟩ : Env))]
    [(0, Act.finished "a")] (by decide)).2.2

/-! Batch orchestration. -/

/-- C2: once the client is built and no worker panics, download_files
emits the batch-start event carrying the task count before anything
else, then only progress events, then the batch-complete event exactly
once and last, and returns Ok unconditionally: the per-worker results,
errors included, are discarded without inspection and do not influence
the returned value or the trace shape. -/
theorem batch_lifecycle (tasks : List (DownloadTask × Env)) (sched : List (Nat × Act))
    (_hI : isInterleaving sched (workerTraces tasks) = true)
    (hnp : ∀ te ∈ tasks, (workerRun te.2 te.1).outcome ≠ Outcome.panicked) :
    download_files none tasks sched = some (Except.ok (), batchTrace tasks sched) ∧
    (batchTrace tasks sched).head? = some (BatchEvent.start tasks.length) ∧
    (batchTrace tasks sched).getLast? = some BatchEvent.complete ∧
    (batchTrace tasks sched).countP isCompleteEvent = 1 ∧
    ((batchTrace tasks sched).drop 1).dropLast.all isProgressEvent = true := by
  have hany : tasks.any
      (fun te => decide ((workerRun te.2 te.1).outcome = Outcome.panicked)) = false := by
    rw [List.any_eq_false]
    intro te hte
    simpa using hnp te hte
  refine ⟨by simp [download_files, hany], rfl, ?_, ?_, ?_⟩
  · show (BatchEvent.start tasks.length ::
      ((replayTagged tasks.length sched (0, 0)).1.map (fun p => BatchEvent.progress p.1 p.2) ++
        [BatchEvent.complete])).getLast? = some BatchEvent.complete
    rw [← List.cons_append, List.getLast?_concat]
  · show (BatchEvent.start tasks.length ::
      ((replayTagged tasks.length sched (0, 0)).1.map (fun p => BatchEvent.progress p.1 p.2) ++
        [BatchEvent.complete])).countP isCompleteEvent = 1
    rw [List.countP_cons, List.countP_append, List.countP_map]
    have h0 : (replayTagged tasks.length sched (0, 0)).1.countP
        (fun p => isCompleteEvent (BatchEvent.progress p.1 p.2)) = 0 := by
      rw [List.countP_eq_zero]
      intro p _
      simp [isCompleteEvent]
    simp [h0, isCompleteEvent]
  · show ((BatchEvent.start tasks.length ::
      ((replayTagged tasks.length sched (0, 0)).1.map (fun p => BatchEvent.progress p.1 p.2) ++
        [BatchEvent.complete])).drop 1).dropLast.all isProgressEvent = true
    rw [List.drop_one, List.tail_cons, List.dropLast_concat]
    rw [List.all_eq_true]
    intro e he
    obtain ⟨p, _, rfl⟩ := List.mem_map.mp he
    rfl

/-- Witness for C2: a single-task batch whose worker finishes yields the
start event with count 1, one progress event, the complete event, and
the Ok return value. -/
theorem batch_lifecycle_witness :
    download_files none
      [((⟨"u", [PathComp.normal "a"], none⟩ : DownloadTask),
        (⟨false, none, none, Except.ok ⟨none, [], none⟩⟩ : Env))]
      [(0, Act.finished "a")] =
      some (Except.ok (),
        [BatchEvent.start 1, BatchEvent.progress 0 ⟨"a", 0, 0, "Finished", 1, 1, 0⟩,
         BatchEvent.complete]) := by
  have h := (batch_lifecycle
    [((⟨"u", [PathComp.normal "a"], none⟩ : DownloadTask),
      (⟨false, none, none, Except.ok ⟨none, [], none⟩⟩ : Env))]
    [(0, Act.finished "a")] (by decide) (by decide)).1
  rw [h]
  rfl

/-! Scheduler bound. -/

/-- Count of a list entry set at a valid index, additively. -/
theorem countP_set_phase (p : Phase → Bool) :
    ∀ (l : List Phase) (i : Nat) (x y : Phase),
      l[i]? = some x →
      (l.set i y).countP p + (if p x then 1 else 0) = l.countP p + (if p y then 1 else 0) := by
  intro l
  induction l with
  | nil => intro i x y h; simp at h
  | cons z tl ih =>
    intro i x y h
    cases i with
    | zero =>
      simp only [List.getElem?_cons_zero, Option.some.injEq] at h
      subst h
      simp only [List.set_cons_zero, List.countP_cons]
      omega
    | succ j =>
      simp only [List.getElem?_cons_succ] at h
      have := ih j x y h
      simp only [List.set_cons_succ, List.countP_cons]
      omega

/-- Invariant of the scheduler: at most limitN tasks hold a permit and
at most 10 task futures are being driven at any time. -/
theorem sched_invariant (limitN m : Nat) :
    ∀ l, SchedReach limitN m l →
      l.countP isRunning ≤ limitN ∧ l.countP isActive ≤ 10 := by
  intro l h
  induction h with
  | init =>
    have h1 : (List.replicate m Phase.pending).countP isRunning = 0 := by
      rw [List.countP_eq_zero]
      intro a ha
      rw [List.eq_of_mem_replicate ha]
      simp [isRunning]
    have h2 : (List.replicate m Phase.pending).countP isActive = 0 := by
      rw [List.countP_eq_zero]
      intro a ha
      rw [List.eq_of_mem_replicate ha]
      simp [isActive]
    omega
  | step hr hs ih =>
    cases hs with
    | spawn i hi hcap =>
      have h1 := countP_set_phase isRunning _ i Phase.pending Phase.admitted hi
      have h2 := countP_set_phase isActive _ i Phase.pending Phase.admitted hi
      simp [isRunning, isActive] at h1 h2
      omega
    | acquire i hi hcap =>
      have h1 := countP_set_phase isRunning _ i Phase.admitted Phase.running hi
      have h2 := countP_set_phase isActive _ i Phase.admitted Phase.running hi
      simp [isRunning, isActive] at h1 h2
      omega
    | finish i hi =>
      have h1 := countP_set_phase isRunning _ i Phase.running Phase.done hi
      have h2 := countP_set_phase isActive _ i Phase.running Phase.done hi
      simp [isRunning, isActive] at h1 h2
      omega

/-- C9: at no reachable scheduler state are more than min(limitN, 10)
tasks simultaneously past permit acquisition and in active transfer: the
semaphore bounds them by its pool size while the buffer_unordered
combinator bounds the driven futures by its fixed fan-out of 10, and the
effective concurrency is the minimum of the two. -/
theorem concurrency_bound (limitN m : Nat) (l : List Phase)
    (h : SchedReach limitN m l) :
    l.countP isRunning ≤ min limitN 10 := by
  have hi := sched_invariant limitN m l h
  have hra : l.countP isRunning ≤ l.countP isActive := by
    apply List.countP_mono_left
    intro a _ ha
    cases a <;> simp_all [isRunning, isActive]
  exact le_min hi.1 (le_trans hra hi.2)

/-- Witness for C9: the initial state of a batch of three tasks with
permit pool size two satisfies the bound. -/
theorem concurrency_bound_witness :
    (List.replicate 3 Phase.pending).countP isRunning ≤ min 2 10 :=
  concurrency_bound 2 3 (List.replicate 3 Phase.pending) SchedReach.init

end DropOut
